import Mathlib

/-!
Verification of the `pandasai.llm.base` module: the `LLM` base class
(code extraction from model responses, system-prompt prepending) and the
`BaseGoogle` adapter (parameter updates, range validation, `call`).

Python strings are embedded as `List Char`.  `str.split`, substring
membership (`in`), `str.strip` and the two regular expressions used by
`_polish_code` are translated to executable Lean functions below.
Python's `ast.parse` validity check (an external standard-library
collaborator) is abstracted as a boolean predicate parameter `isPy`.
-/

/-- The backtick character, written without a character literal. -/
def backtickChar : Char := ("`".data).headD ' '

/-- The default separator of `_extract_code`: three backticks. -/
def fence : List Char := "```".data

/-- Whitespace in the sense of Python `str.strip` (ASCII part). -/
def isPySpace (c : Char) : Bool :=
  c = ' ' || c = '\t' || c = '\n' || c = '\r' || c = '\x0b' || c = '\x0c'

/-- Embedding of Python `str.strip()`: drop whitespace from both ends. -/
def trimChars (l : List Char) : List Char :=
  ((l.dropWhile isPySpace).reverse.dropWhile isPySpace).reverse

/-- True when the list contains no newline; the regex `.` of `_polish_code`
does not match newlines, so the backtick-wrap pattern requires this. -/
def noNewline (l : List Char) : Bool := !(l.contains '\n')

/-- First occurrence of `sep` in `s`: returns the part before the first
occurrence and the part after it, or `none` when `sep` does not occur.
This is the primitive underlying Python `str.split` and `in`. -/
def splitFirst (sep : List Char) : List Char → Option (List Char × List Char)
  | [] => none
  | c :: cs =>
    if sep.isPrefixOf (c :: cs) then some ([], (c :: cs).drop sep.length)
    else
      match splitFirst sep cs with
      | some (pre, post) => some (c :: pre, post)
      | none => none

/-- Fuel-driven worker for `splitOnSep`; `fuel = s.length` always suffices
for a nonempty separator because every occurrence consumes characters. -/
def splitGo (sep : List Char) : Nat → List Char → List (List Char)
  | 0, s => [s]
  | fuel + 1, s =>
    match splitFirst sep s with
    | none => [s]
    | some (pre, post) => pre :: splitGo sep fuel post

/-- Embedding of Python `str.split(sep)` for a nonempty separator. -/
def splitOnSep (sep s : List Char) : List (List Char) :=
  if sep = [] then [s] else splitGo sep s.length s

/-- Embedding of Python `sep in s` (substring membership). -/
def containsSub (sep s : List Char) : Bool :=
  if sep = [] then true else (splitFirst sep s).isSome

/-- Embedding of the regex step `re.sub(r"^(backtick)(.*)(backtick)$", ...)`
of `_polish_code`: `.` does not cross newlines and `$` also matches just
before a final newline, so the pattern strips one pair of surrounding
backticks from a string whose interior holds no newline, allowing one
trailing newline after the closing backtick. -/
def stripBacktickWrap (code : List Char) : List Char :=
  if code.head? = some backtickChar ∧ code.getLast? = some backtickChar ∧
     2 ≤ code.length ∧ noNewline ((code.drop 1).dropLast) = true then
    (code.drop 1).dropLast
  else if code.head? = some backtickChar ∧ code.getLast? = some '\n' ∧
     code.dropLast.getLast? = some backtickChar ∧ 3 ≤ code.length ∧
     noNewline (((code.drop 1).dropLast).dropLast) = true then
    ((code.drop 1).dropLast).dropLast ++ ['\n']
  else code

/-- Embedding of `LLM._polish_code`: strip a leading `python` or `py`
token (the regex alternation tries `python` first), strip a surrounding
backtick pair, then strip whitespace from both ends. -/
def polish_code (code : List Char) : List Char :=
  let code :=
    if ("python".data).isPrefixOf code then code.drop ("python".data).length
    else if ("py".data).isPrefixOf code then code.drop ("py".data).length
    else code
  let code := stripBacktickWrap code
  trimChars code

/-- The candidate selection of `LLM._extract_code` (lines 116-118): if the
separator occurs in the response and splitting yields more than one
segment, take the segment at index 1, else keep the whole response. -/
def extract_candidate (response sep : List Char) : List Char :=
  if containsSub sep response = true ∧ 1 < (splitOnSep sep response).length then
    (splitOnSep sep response).getD 1 []
  else response

/-- Embedding of `LLM._extract_code`: polish the candidate and validate it
with the Python syntax check `isPy` (abstracting `ast.parse`); `none`
models raising `NoCodeFoundError`. -/
def extract_code (isPy : List Char → Bool) (response sep : List Char) :
    Option (List Char) :=
  let code := polish_code (extract_candidate response sep)
  if isPy code = true then some code else none

/-- Embedding of `LLM.generate_code` applied to the provider response:
extraction with the default separator. -/
def generate_code (isPy : List Char → Bool) (response : List Char) :
    Option (List Char) :=
  extract_code isPy response fence

/-- Modelled from the spec: `Memory` is an ordered sequence of prior
conversation turns; its truthiness (`if memory`) is non-emptiness.  The
`Memory` class itself lives outside this module. -/
structure Memory where
  messages : List String

/-- Modelled from the spec: a `BasePrompt`-shaped object requires a
`to_string` capability. -/
structure BasePrompt where
  to_string : String

/-- Modelled from the spec: a `PipelineContext`-shaped object exposes a
`.memory` field. -/
structure PipelineContext where
  memory : Memory

/-- Embedding of `LLM.prepend_system_prompt`.  The system-context header
`GenerateSystemMessagePrompt(memory=memory).to_string()` built by
`get_system_prompt` lives outside this module, so it is abstracted as the
parameter `sysMsg`. -/
def prepend_system_prompt (sysMsg : Memory → String) (prompt : String)
    (memory : Memory) : String :=
  if memory.messages ≠ [] then sysMsg memory ++ prompt else prompt

/-- Embedding of the `BaseGoogle` adapter state: the `last_prompt` field
inherited from `LLM` and the four generation parameters with their class
defaults (0, 0.8, 40, 1000).  Python floats and ints are embedded as `ℚ`
(only order comparisons on exactly representable values occur). -/
structure BaseGoogle where
  last_prompt : Option String := none
  temperature : Option ℚ := some 0
  top_p : Option ℚ := some (4 / 5)
  top_k : Option ℚ := some 40
  max_output_tokens : Option ℚ := some 1000

/-- A freshly constructed `BaseGoogle()` with all class defaults. -/
def googleDefault : BaseGoogle := {}

/-- Embedding of `BaseGoogle._valid_params`. -/
def valid_params : List String :=
  ["temperature", "top_p", "top_k", "max_output_tokens"]

/-- Embedding of `setattr(self, key, value)` restricted to the attributes
that `_set_params` can reach (its guard only admits keys from
`valid_params`, so the fallthrough branch is unreachable there). -/
def setattr (g : BaseGoogle) (key : String) (value : Option ℚ) : BaseGoogle :=
  if key = "temperature" then { g with temperature := value }
  else if key = "top_p" then { g with top_p := value }
  else if key = "top_k" then { g with top_k := value }
  else if key = "max_output_tokens" then { g with max_output_tokens := value }
  else g

/-- Embedding of `BaseGoogle._set_params`: kwargs are an ordered
association list with distinct keys; each key in `valid_params` is
written via `setattr`, any other key is skipped. -/
def set_params (g : BaseGoogle) (kwargs : List (String × Option ℚ)) :
    BaseGoogle :=
  kwargs.foldl
    (fun acc kv => if valid_params.contains kv.1 then setattr acc kv.1 kv.2
                   else acc) g

/-- Fourth guard of `BaseGoogle._validate` (max_output_tokens). -/
def validate_max_output_tokens (g : BaseGoogle) : Except String Unit :=
  match g.max_output_tokens with
  | some m =>
    if m ≤ 0 then Except.error "max_output_tokens must be greater than zero"
    else Except.ok ()
  | none => Except.ok ()

/-- Third guard of `BaseGoogle._validate` (top_k), then the rest. -/
def validate_top_k (g : BaseGoogle) : Except String Unit :=
  match g.top_k with
  | some k =>
    if ¬(0 ≤ k ∧ k ≤ 100) then
      Except.error "top_k must be in the range [0.0, 100.0]"
    else validate_max_output_tokens g
  | none => validate_max_output_tokens g

/-- Second guard of `BaseGoogle._validate` (top_p), then the rest. -/
def validate_top_p (g : BaseGoogle) : Except String Unit :=
  match g.top_p with
  | some p =>
    if ¬(0 ≤ p ∧ p ≤ 1) then
      Except.error "top_p must be in the range [0.0, 1.0]"
    else validate_top_k g
  | none => validate_top_k g

/-- Embedding of `BaseGoogle._validate`: the four range guards in source
order; `Except.error msg` models `raise ValueError(msg)`. -/
def validate (g : BaseGoogle) : Except String Unit :=
  match g.temperature with
  | some t =>
    if ¬(0 ≤ t ∧ t ≤ 1) then
      Except.error "temperature must be in the range [0.0, 1.0]"
    else validate_top_p g
  | none => validate_top_p g

/-- Embedding of `BaseGoogle.call`: the provider-specific
`_generate_text` is abstract, passed as `gen`.  Returns the updated
adapter state together with the text result. -/
def BaseGoogle.call (gen : String → Option Memory → String) (g : BaseGoogle)
    (instruction : BasePrompt) (context : Option PipelineContext) :
    BaseGoogle × String :=
  let g2 := { g with last_prompt := some instruction.to_string }
  let memory := match context with
    | some c => some c.memory
    | none => none
  (g2, gen instruction.to_string memory)

/-! ### Helper lemmas about the string machinery -/

theorem backtick_cons : fence = backtickChar :: backtickChar :: backtickChar :: [] := rfl

theorem python_data_cons : "python".data = 'p' :: 'y' :: 't' :: 'h' :: 'o' :: 'n' :: [] := rfl

theorem py_data_cons : "py".data = 'p' :: 'y' :: [] := rfl

theorem isPrefixOf_append_self (l t : List Char) : l.isPrefixOf (l ++ t) = true := by
  induction l with
  | nil => simp [List.isPrefixOf]
  | cons c cs ih => simp [List.isPrefixOf, ih]

theorem eq_append_drop_of_isPrefixOf (sep : List Char) :
    ∀ s : List Char, sep.isPrefixOf s = true → s = sep ++ s.drop sep.length := by
  induction sep with
  | nil => intro s _; simp
  | cons a as ih =>
    intro s h
    cases s with
    | nil => simp [List.isPrefixOf] at h
    | cons b bs =>
      simp only [List.isPrefixOf, Bool.and_eq_true, beq_iff_eq] at h
      obtain ⟨rfl, h2⟩ := h
      have := ih bs h2
      simpa [List.length, List.drop] using congrArg (a :: ·) this

theorem splitFirst_decomp (sep pre post : List Char) :
    ∀ s : List Char, splitFirst sep s = some (pre, post) → s = pre ++ sep ++ post := by
  intro s
  induction s generalizing pre with
  | nil => intro h; simp [splitFirst] at h
  | cons c cs ih =>
    intro h
    rw [splitFirst] at h
    by_cases hp : sep.isPrefixOf (c :: cs) = true
    · rw [if_pos hp] at h
      obtain ⟨h1, h2⟩ := Prod.mk.injEq .. ▸ Option.some.injEq .. ▸ h
      have hd := eq_append_drop_of_isPrefixOf sep (c :: cs) hp
      subst h1
      simp only [List.nil_append]
      rw [hd, ← h2]
    · rw [if_neg hp] at h
      cases hsf : splitFirst sep cs with
      | none => rw [hsf] at h; simp at h
      | some pr =>
        obtain ⟨pre1, post1⟩ := pr
        rw [hsf] at h
        simp only [Option.some.injEq, Prod.mk.injEq] at h
        obtain ⟨h1, h2⟩ := h
        subst h2
        have := ih pre1 hsf
        rw [← h1]
        simp [this]

theorem splitFirst_nil (sep : List Char) : splitFirst sep [] = none := rfl

theorem splitGo_of_none (sep s : List Char) (h : splitFirst sep s = none) :
    ∀ fuel, splitGo sep fuel s = [s] := by
  intro fuel
  cases fuel with
  | zero => rfl
  | succ n => simp [splitGo, h]

theorem splitOnSep_of_none (sep s : List Char) (h : splitFirst sep s = none) :
    splitOnSep sep s = [s] := by
  unfold splitOnSep
  by_cases hsep : sep = []
  · simp [hsep]
  · simp [hsep, splitGo_of_none sep s h]

theorem splitOnSep_of_some (sep s pre post : List Char) (hsep : sep ≠ [])
    (h : splitFirst sep s = some (pre, post)) :
    splitOnSep sep s = pre :: splitGo sep (s.length - 1) post ∧
      post.length ≤ s.length - 1 := by
  have hdec := splitFirst_decomp sep pre post s h
  have hslen : 1 ≤ sep.length := by
    cases sep with
    | nil => exact absurd rfl hsep
    | cons a as => simp
  have hlen : s.length = pre.length + sep.length + post.length := by
    rw [hdec]; simp; omega
  have hne : s ≠ [] := by
    intro he; rw [he, splitFirst_nil] at h; exact Option.noConfusion h
  have hlpos : 1 ≤ s.length := by
    cases s with
    | nil => exact absurd rfl hne
    | cons a as => simp
  constructor
  · unfold splitOnSep
    rw [if_neg hsep]
    obtain ⟨n, hn⟩ : ∃ n, s.length = n + 1 :=
      ⟨s.length - 1, by omega⟩
    rw [hn]
    simp [splitGo, h]
  · omega

theorem extract_candidate_eq (response sep : List Char) (hsep : sep ≠ []) :
    extract_candidate response sep =
      match splitFirst sep response with
      | none => response
      | some (_, post) =>
        match splitFirst sep post with
        | none => post
        | some (pre2, _) => pre2 := by
  cases h1 : splitFirst sep response with
  | none =>
    simp [extract_candidate, containsSub, hsep, h1]
  | some pr =>
    obtain ⟨pre, post⟩ := pr
    obtain ⟨hsplit, hpostlen⟩ := splitOnSep_of_some sep response pre post hsep h1
    have hcont : containsSub sep response = true := by
      simp [containsSub, hsep, h1]
    cases h2 : splitFirst sep post with
    | none =>
      have : splitOnSep sep response = [pre, post] := by
        rw [hsplit, splitGo_of_none sep post h2]
      simp [extract_candidate, hcont, this, h1, h2]
    | some pr2 =>
      obtain ⟨pre2, post2⟩ := pr2
      have hpostne : post ≠ [] := by
        intro he; rw [he, splitFirst_nil] at h2; exact Option.noConfusion h2
      have hpostpos : 1 ≤ post.length := by
        cases post with
        | nil => exact absurd rfl hpostne
        | cons a as => simp
      obtain ⟨m, hm⟩ : ∃ m, response.length - 1 = m + 1 :=
        ⟨response.length - 2, by omega⟩
      have : splitOnSep sep response = pre :: pre2 :: splitGo sep m post2 := by
        rw [hsplit, hm]
        simp [splitGo, h2]
      simp [extract_candidate, hcont, this, h1, h2]

theorem splitFirst_fence_cons (rest : List Char) :
    splitFirst fence (fence ++ rest) = some ([], rest) := by
  have h : fence ++ rest = backtickChar :: backtickChar :: backtickChar :: rest := by
    rw [backtick_cons]; rfl
  have hp : fence.isPrefixOf (backtickChar :: backtickChar :: backtickChar :: rest)
      = true := by
    rw [← h]; exact isPrefixOf_append_self fence rest
  rw [h, splitFirst, if_pos hp]
  simp [backtick_cons]

theorem splitFirst_no_backtick_append (l m : List Char) (hl : backtickChar ∉ l) :
    splitFirst fence (l ++ m) =
      Option.map (fun pr => (l ++ pr.1, pr.2)) (splitFirst fence m) := by
  induction l with
  | nil =>
    cases h : splitFirst fence m with
    | none => simp [h]
    | some pr => simp [h]
  | cons c cs ih =>
    have hc : c ≠ backtickChar := fun he => hl (he ▸ List.mem_cons_self c cs)
    have hcs : backtickChar ∉ cs := fun hm => hl (List.mem_cons_of_mem c hm)
    have hpre : fence.isPrefixOf (c :: (cs ++ m)) = false := by
      rw [backtick_cons]
      simp [List.isPrefixOf]
      intro he
      exact absurd he.symm hc
    rw [List.cons_append, splitFirst, if_neg (by simp [hpre]), ih hcs]
    cases h : splitFirst fence m with
    | none => simp
    | some pr => simp

theorem splitFirst_no_backtick (l : List Char) (hl : backtickChar ∉ l) :
    splitFirst fence l = none := by
  have := splitFirst_no_backtick_append l [] hl
  simpa using this

theorem stripBacktickWrap_of_head (code : List Char)
    (h : code.head? ≠ some backtickChar) : stripBacktickWrap code = code := by
  unfold stripBacktickWrap
  rw [if_neg (fun hc => h hc.1), if_neg (fun hc => h hc.1)]

theorem py_isPrefixOf_of_python (code : List Char)
    (h : ("python".data).isPrefixOf code = true) :
    ("py".data).isPrefixOf code = true := by
  cases code with
  | nil => rw [python_data_cons] at h; simp [List.isPrefixOf] at h
  | cons c1 rest1 =>
    cases rest1 with
    | nil =>
      rw [python_data_cons] at h; simp [List.isPrefixOf] at h
    | cons c2 rest2 =>
      rw [python_data_cons] at h
      rw [py_data_cons]
      simp only [List.isPrefixOf, Bool.and_eq_true, beq_iff_eq] at h ⊢
      exact ⟨h.1, h.2.1, trivial⟩

theorem polish_code_no_tag (code : List Char)
    (h1 : ("py".data).isPrefixOf code = false)
    (h2 : code.head? ≠ some backtickChar) :
    polish_code code = trimChars code := by
  have hpy : ("python".data).isPrefixOf code = false := by
    cases hp : ("python".data).isPrefixOf code with
    | false => rfl
    | true => rw [py_isPrefixOf_of_python code hp] at h1; exact h1
  unfold polish_code
  simp only [hpy, h1, Bool.false_eq_true, if_false]
  rw [stripBacktickWrap_of_head code h2]

theorem polish_code_python_append (content : List Char)
    (hb : backtickChar ∉ content) :
    polish_code ("python".data ++ content) = trimChars content := by
  unfold polish_code
  simp only [isPrefixOf_append_self, if_true, List.drop_left]
  have hhead : content.head? ≠ some backtickChar := by
    cases content with
    | nil => simp
    | cons c cs =>
      simp only [List.head?, ne_eq, Option.some.injEq]
      intro he
      exact hb (he ▸ List.mem_cons_self c cs)
  rw [stripBacktickWrap_of_head content hhead]

theorem trimChars_of_all_space (l : List Char)
    (h : ∀ c ∈ l, isPySpace c = true) : trimChars l = [] := by
  unfold trimChars
  rw [List.dropWhile_eq_nil_iff.mpr h]
  simp

/-! ### Helper lemmas about `BaseGoogle` -/

theorem validate_eq_top_p (g : BaseGoogle)
    (h : ∀ t, g.temperature = some t → 0 ≤ t ∧ t ≤ 1) :
    validate g = validate_top_p g := by
  unfold validate
  cases ht : g.temperature with
  | none => rfl
  | some t => simp [h t ht]

theorem validate_err_temperature (g : BaseGoogle) (t : ℚ)
    (ht : g.temperature = some t) (hr : ¬(0 ≤ t ∧ t ≤ 1)) :
    validate g = Except.error "temperature must be in the range [0.0, 1.0]" := by
  unfold validate
  rw [ht]
  simp [hr]

theorem validate_top_p_eq_top_k (g : BaseGoogle)
    (h : ∀ p, g.top_p = some p → 0 ≤ p ∧ p ≤ 1) :
    validate_top_p g = validate_top_k g := by
  unfold validate_top_p
  cases hp : g.top_p with
  | none => rfl
  | some p => simp [h p hp]

theorem validate_err_top_p (g : BaseGoogle) (p : ℚ)
    (hp : g.top_p = some p) (hr : ¬(0 ≤ p ∧ p ≤ 1)) :
    validate_top_p g = Except.error "top_p must be in the range [0.0, 1.0]" := by
  unfold validate_top_p
  rw [hp]
  simp [hr]

theorem validate_top_k_eq_max (g : BaseGoogle)
    (h : ∀ k, g.top_k = some k → 0 ≤ k ∧ k ≤ 100) :
    validate_top_k g = validate_max_output_tokens g := by
  unfold validate_top_k
  cases hk : g.top_k with
  | none => rfl
  | some k => simp [h k hk]

theorem validate_err_top_k (g : BaseGoogle) (k : ℚ)
    (hk : g.top_k = some k) (hr : ¬(0 ≤ k ∧ k ≤ 100)) :
    validate_top_k g = Except.error "top_k must be in the range [0.0, 100.0]" := by
  unfold validate_top_k
  rw [hk]
  simp [hr]

theorem validate_max_ok (g : BaseGoogle)
    (h : ∀ m, g.max_output_tokens = some m → 0 < m) :
    validate_max_output_tokens g = Except.ok () := by
  unfold validate_max_output_tokens
  cases hm : g.max_output_tokens with
  | none => rfl
  | some m => simp [not_le.mpr (h m hm)]

theorem validate_err_max (g : BaseGoogle) (m : ℚ)
    (hm : g.max_output_tokens = some m) (hr : m ≤ 0) :
    validate_max_output_tokens g
      = Except.error "max_output_tokens must be greater than zero" := by
  unfold validate_max_output_tokens
  rw [hm]
  simp [hr]

theorem validate_max_ok_iff (g : BaseGoogle) :
    validate_max_output_tokens g = Except.ok ()
      ↔ (∀ m, g.max_output_tokens = some m → 0 < m) := by
  constructor
  · intro hok m hm
    by_contra hneg
    rw [validate_err_max g m hm (not_lt.mp hneg)] at hok
    exact Except.noConfusion hok
  · exact validate_max_ok g

theorem validate_top_k_ok_iff (g : BaseGoogle) :
    validate_top_k g = Except.ok ()
      ↔ ((∀ k, g.top_k = some k → 0 ≤ k ∧ k ≤ 100) ∧
         (∀ m, g.max_output_tokens = some m → 0 < m)) := by
  constructor
  · intro hok
    have hK : ∀ k, g.top_k = some k → 0 ≤ k ∧ k ≤ 100 := by
      intro k hk
      by_contra hneg
      rw [validate_err_top_k g k hk hneg] at hok
      exact Except.noConfusion hok
    refine ⟨hK, ?_⟩
    rw [validate_top_k_eq_max g hK] at hok
    exact (validate_max_ok_iff g).mp hok
  · intro h
    rw [validate_top_k_eq_max g h.1]
    exact validate_max_ok g h.2

theorem validate_top_p_ok_iff (g : BaseGoogle) :
    validate_top_p g = Except.ok ()
      ↔ ((∀ p, g.top_p = some p → 0 ≤ p ∧ p ≤ 1) ∧
         (∀ k, g.top_k = some k → 0 ≤ k ∧ k ≤ 100) ∧
         (∀ m, g.max_output_tokens = some m → 0 < m)) := by
  constructor
  · intro hok
    have hP : ∀ p, g.top_p = some p → 0 ≤ p ∧ p ≤ 1 := by
      intro p hp
      by_contra hneg
      rw [validate_err_top_p g p hp hneg] at hok
      exact Except.noConfusion hok
    refine ⟨hP, ?_⟩
    rw [validate_top_p_eq_top_k g hP] at hok
    exact (validate_top_k_ok_iff g).mp hok
  · intro h
    rw [validate_top_p_eq_top_k g h.1]
    exact (validate_top_k_ok_iff g).mpr h.2

theorem validate_ok_iff (g : BaseGoogle) :
    validate g = Except.ok ()
      ↔ ((∀ t, g.temperature = some t → 0 ≤ t ∧ t ≤ 1) ∧
         (∀ p, g.top_p = some p → 0 ≤ p ∧ p ≤ 1) ∧
         (∀ k, g.top_k = some k → 0 ≤ k ∧ k ≤ 100) ∧
         (∀ m, g.max_output_tokens = some m → 0 < m)) := by
  constructor
  · intro hok
    have hT : ∀ t, g.temperature = some t → 0 ≤ t ∧ t ≤ 1 := by
      intro t ht
      by_contra hneg
      rw [validate_err_temperature g t ht hneg] at hok
      exact Except.noConfusion hok
    refine ⟨hT, ?_⟩
    rw [validate_eq_top_p g hT] at hok
    exact (validate_top_p_ok_iff g).mp hok
  · intro h
    rw [validate_eq_top_p g h.1]
    exact (validate_top_p_ok_iff g).mpr h.2

theorem validate_max_error_shape (g : BaseGoogle) (e : String)
    (h : validate_max_output_tokens g = Except.error e) :
    e = "max_output_tokens must be greater than zero" := by
  unfold validate_max_output_tokens at h
  cases hm : g.max_output_tokens with
  | none => rw [hm] at h; exact Except.noConfusion h
  | some m =>
    rw [hm] at h
    by_cases hr : m ≤ 0
    · simp [hr] at h
      exact h.symm
    · simp [hr] at h

theorem validate_top_k_error_shape (g : BaseGoogle) (e : String)
    (h : validate_top_k g = Except.error e) :
    e = "top_k must be in the range [0.0, 100.0]" ∨
      e = "max_output_tokens must be greater than zero" := by
  unfold validate_top_k at h
  cases hk : g.top_k with
  | none => rw [hk] at h; exact Or.inr (validate_max_error_shape g e h)
  | some k =>
    rw [hk] at h
    by_cases hr : 0 ≤ k ∧ k ≤ 100
    · simp [hr] at h
      exact Or.inr (validate_max_error_shape g e h)
    · simp [hr] at h
      exact Or.inl h.symm

theorem validate_top_p_error_shape (g : BaseGoogle) (e : String)
    (h : validate_top_p g = Except.error e) :
    e = "top_p must be in the range [0.0, 1.0]" ∨
      e = "top_k must be in the range [0.0, 100.0]" ∨
      e = "max_output_tokens must be greater than zero" := by
  unfold validate_top_p at h
  cases hp : g.top_p with
  | none => rw [hp] at h; exact Or.inr (validate_top_k_error_shape g e h)
  | some p =>
    rw [hp] at h
    by_cases hr : 0 ≤ p ∧ p ≤ 1
    · simp [hr] at h
      exact Or.inr (validate_top_k_error_shape g e h)
    · simp [hr] at h
      exact Or.inl h.symm

theorem setattr_last_prompt (g : BaseGoogle) (key : String) (value : Option ℚ) :
    (setattr g key value).last_prompt = g.last_prompt := by
  unfold setattr
  split_ifs <;> rfl

theorem setattr_temperature_ne (g : BaseGoogle) (key : String) (value : Option ℚ)
    (h : key ≠ "temperature") : (setattr g key value).temperature = g.temperature := by
  unfold setattr
  split_ifs with h1 h2 h3 h4 <;> first | exact absurd h1 h | rfl

theorem setattr_top_p_ne (g : BaseGoogle) (key : String) (value : Option ℚ)
    (h : key ≠ "top_p") : (setattr g key value).top_p = g.top_p := by
  unfold setattr
  split_ifs with h1 h2 h3 h4 <;> first | exact absurd h2 h | rfl

theorem setattr_top_k_ne (g : BaseGoogle) (key : String) (value : Option ℚ)
    (h : key ≠ "top_k") : (setattr g key value).top_k = g.top_k := by
  unfold setattr
  split_ifs with h1 h2 h3 h4 <;> first | exact absurd h3 h | rfl

theorem setattr_max_ne (g : BaseGoogle) (key : String) (value : Option ℚ)
    (h : key ≠ "max_output_tokens") :
    (setattr g key value).max_output_tokens = g.max_output_tokens := by
  unfold setattr
  split_ifs with h1 h2 h3 h4 <;> first | exact absurd h4 h | rfl

theorem set_params_cons (g : BaseGoogle) (kv : String × Option ℚ)
    (rest : List (String × Option ℚ)) :
    set_params g (kv :: rest) =
      set_params (if valid_params.contains kv.1 then setattr g kv.1 kv.2 else g)
        rest := rfl

theorem set_params_last_prompt (kwargs : List (String × Option ℚ)) :
    ∀ g : BaseGoogle, (set_params g kwargs).last_prompt = g.last_prompt := by
  induction kwargs with
  | nil => intro g; rfl
  | cons kv rest ih =>
    intro g
    rw [set_params_cons, ih]
    by_cases hc : valid_params.contains kv.1 = true
    · rw [if_pos hc, setattr_last_prompt]
    · rw [if_neg hc]

theorem set_params_temperature_not_mem (kwargs : List (String × Option ℚ))
    (h : "temperature" ∉ kwargs.map Prod.fst) :
    ∀ g : BaseGoogle, (set_params g kwargs).temperature = g.temperature := by
  induction kwargs with
  | nil => intro g; rfl
  | cons kv rest ih =>
    intro g
    have hk : kv.1 ≠ "temperature" := by
      intro he; exact h (by simp [he])
    have ht : "temperature" ∉ rest.map Prod.fst := by
      intro hm; exact h (by simp [hm])
    rw [set_params_cons, ih ht]
    by_cases hc : valid_params.contains kv.1 = true
    · rw [if_pos hc, setattr_temperature_ne g kv.1 kv.2 hk]
    · rw [if_neg hc]

theorem set_params_top_p_not_mem (kwargs : List (String × Option ℚ))
    (h : "top_p" ∉ kwargs.map Prod.fst) :
    ∀ g : BaseGoogle, (set_params g kwargs).top_p = g.top_p := by
  induction kwargs with
  | nil => intro g; rfl
  | cons kv rest ih =>
    intro g
    have hk : kv.1 ≠ "top_p" := by
      intro he; exact h (by simp [he])
    have ht : "top_p" ∉ rest.map Prod.fst := by
      intro hm; exact h (by simp [hm])
    rw [set_params_cons, ih ht]
    by_cases hc : valid_params.contains kv.1 = true
    · rw [if_pos hc, setattr_top_p_ne g kv.1 kv.2 hk]
    · rw [if_neg hc]

theorem set_params_top_k_not_mem (kwargs : List (String × Option ℚ))
    (h : "top_k" ∉ kwargs.map Prod.fst) :
    ∀ g : BaseGoogle, (set_params g kwargs).top_k = g.top_k := by
  induction kwargs with
  | nil => intro g; rfl
  | cons kv rest ih =>
    intro g
    have hk : kv.1 ≠ "top_k" := by
      intro he; exact h (by simp [he])
    have ht : "top_k" ∉ rest.map Prod.fst := by
      intro hm; exact h (by simp [hm])
    rw [set_params_cons, ih ht]
    by_cases hc : valid_params.contains kv.1 = true
    · rw [if_pos hc, setattr_top_k_ne g kv.1 kv.2 hk]
    · rw [if_neg hc]

theorem set_params_max_not_mem (kwargs : List (String × Option ℚ))
    (h : "max_output_tokens" ∉ kwargs.map Prod.fst) :
    ∀ g : BaseGoogle, (set_params g kwargs).max_output_tokens
      = g.max_output_tokens := by
  induction kwargs with
  | nil => intro g; rfl
  | cons kv rest ih =>
    intro g
    have hk : kv.1 ≠ "max_output_tokens" := by
      intro he; exact h (by simp [he])
    have ht : "max_output_tokens" ∉ rest.map Prod.fst := by
      intro hm; exact h (by simp [hm])
    rw [set_params_cons, ih ht]
    by_cases hc : valid_params.contains kv.1 = true
    · rw [if_pos hc, setattr_max_ne g kv.1 kv.2 hk]
    · rw [if_neg hc]

/-! ### Claim theorems -/

/-- C1: a response that is exactly a fenced code block with the default
separator and a leading `python` tag extracts to the fenced content with
the tag, fence backticks and surrounding whitespace stripped; the spec's
example `_extract_code("```python\nprint(1+1)\n```") = "print(1+1)"` is
the witness instance. -/
theorem c1_fenced_extraction (isPy : List Char → Bool) (content : List Char)
    (hb : backtickChar ∉ content) (hv : isPy (trimChars content) = true) :
    extract_code isPy ("```python".data ++ content ++ "```".data) fence
      = some (trimChars content) := by
  have hfence : fence ≠ [] := by decide
  have hbP : backtickChar ∉ ("python".data ++ content) := by
    intro hm
    rcases List.mem_append.mp hm with hm1 | hm2
    · revert hm1; decide
    · exact hb hm2
  have h1 : ("```python".data : List Char) = fence ++ "python".data := rfl
  have hF : ("```".data : List Char) = fence := rfl
  rw [h1, hF, List.append_assoc, List.append_assoc]
  have hs1 : splitFirst fence (fence ++ ("python".data ++ (content ++ fence)))
      = some ([], "python".data ++ (content ++ fence)) := splitFirst_fence_cons _
  have hsf : splitFirst fence fence = some ([], []) := by
    have := splitFirst_fence_cons []
    rwa [List.append_nil] at this
  have hrest : "python".data ++ (content ++ fence)
      = ("python".data ++ content) ++ fence := by
    rw [List.append_assoc]
  have hs2 : splitFirst fence ("python".data ++ (content ++ fence))
      = some ("python".data ++ content, []) := by
    rw [hrest, splitFirst_no_backtick_append _ _ hbP, hsf]
    simp
  unfold extract_code
  rw [extract_candidate_eq _ _ hfence]
  simp only [hs1, hs2]
  rw [polish_code_python_append content hb, hv]
  simp

/-- Witness for C1 at the spec's example input. -/
theorem c1_fenced_extraction_witness :
    (backtickChar ∉ ("\nprint(1+1)\n".data : List Char)) ∧
    extract_code (fun _ => true) "```python\nprint(1+1)\n```".data fence
      = some "print(1+1)".data := by
  refine ⟨by decide, ?_⟩
  have h := c1_fenced_extraction (fun _ => true) "\nprint(1+1)\n".data
    (by decide) rfl
  have e1 : ("```python".data ++ "\nprint(1+1)\n".data ++ "```".data : List Char)
      = "```python\nprint(1+1)\n```".data := by decide
  have e2 : trimChars "\nprint(1+1)\n".data = "print(1+1)".data := by decide
  rw [e1, e2] at h
  exact h

/-- C2 counterexample: on `"a```b"` the separator occurs exactly once
(the split has exactly two segments), yet `_extract_code` does not fall
back to the whole trimmed text: it returns the segment `"b"` after the
single separator. -/
theorem c2_single_separator_counterexample :
    (splitOnSep fence "a```b".data).length = 2 ∧
    extract_code (fun _ => true) "a```b".data fence = some "b".data ∧
    extract_code (fun _ => true) "a```b".data fence
      ≠ some (trimChars "a```b".data) := by
  refine ⟨by decide, by decide, by decide⟩

/-- C2 (amended): only when the separator occurs zero times does
`_extract_code` fall back to validating the whole (polished) text; when
it occurs at least once — even just once, without a closing fence — the
segment immediately after the first occurrence is the candidate, and any
fence markers beyond the first pair are ignored (the result does not
depend on the tail after the second fence). -/
theorem c2_first_pair_amended (isPy : List Char → Bool)
    (sep response a b tail : List Char) (hsep : sep ≠ [])
    (h0 : containsSub sep response = false)
    (ha : backtickChar ∉ a) (hb : backtickChar ∉ b) :
    extract_code isPy response sep
      = (if isPy (polish_code response) = true then some (polish_code response)
         else none) ∧
    extract_code isPy (a ++ fence ++ b) fence
      = (if isPy (polish_code b) = true then some (polish_code b) else none) ∧
    extract_code isPy (a ++ fence ++ b ++ fence ++ tail) fence
      = (if isPy (polish_code b) = true then some (polish_code b) else none) := by
  have hfence : fence ≠ [] := by decide
  refine ⟨?_, ?_, ?_⟩
  · have hnone : splitFirst sep response = none := by
      unfold containsSub at h0
      rw [if_neg hsep] at h0
      cases hs : splitFirst sep response with
      | none => rfl
      | some pr => rw [hs] at h0; exact Bool.noConfusion h0
    unfold extract_code
    rw [extract_candidate_eq _ _ hsep]
    simp only [hnone]
  · have hs1 : splitFirst fence (a ++ (fence ++ b)) = some (a, b) := by
      rw [splitFirst_no_backtick_append _ _ ha, splitFirst_fence_cons]
      simp
    have hs2 : splitFirst fence b = none := splitFirst_no_backtick b hb
    unfold extract_code
    rw [List.append_assoc, extract_candidate_eq _ _ hfence]
    simp only [hs1, hs2]
  · have hs1 : splitFirst fence (a ++ (fence ++ (b ++ (fence ++ tail))))
        = some (a, b ++ (fence ++ tail)) := by
      rw [splitFirst_no_backtick_append _ _ ha, splitFirst_fence_cons]
      simp
    have hs2 : splitFirst fence (b ++ (fence ++ tail)) = some (b, tail) := by
      rw [splitFirst_no_backtick_append _ _ hb, splitFirst_fence_cons]
      simp
    unfold extract_code
    rw [List.append_assoc, List.append_assoc, List.append_assoc,
      extract_candidate_eq _ _ hfence]
    simp only [hs1, hs2]

/-- Witness for the amended C2 at concrete inputs. -/
theorem c2_first_pair_amended_witness :
    (("#".data : List Char) ≠ []) ∧
    containsSub "#".data "x".data = false ∧
    (backtickChar ∉ ("aa".data : List Char)) ∧
    (backtickChar ∉ ("b=1".data : List Char)) ∧
    extract_code (fun _ => true) "x".data "#".data
      = (if (fun _ => true) (polish_code "x".data) = true
         then some (polish_code "x".data) else none) ∧
    extract_code (fun _ => true) ("aa".data ++ fence ++ "b=1".data) fence
      = (if (fun _ => true) (polish_code "b=1".data) = true
         then some (polish_code "b=1".data) else none) ∧
    extract_code (fun _ => true)
        ("aa".data ++ fence ++ "b=1".data ++ fence ++ "junk".data) fence
      = (if (fun _ => true) (polish_code "b=1".data) = true
         then some (polish_code "b=1".data) else none) := by
  have h := c2_first_pair_amended (fun _ => true) "#".data "x".data
    "aa".data "b=1".data "junk".data (by decide) (by decide) (by decide)
    (by decide)
  exact ⟨by decide, by decide, by decide, by decide, h.1, h.2.1, h.2.2⟩

/-- C3 counterexample: `"python_version()"` has no separator and its
trimmed content is syntactically valid Python, yet `_extract_code`
returns `"_version()"` (the `_polish_code` step strips the leading
`python` token), not the trimmed content unchanged. -/
theorem c3_polish_counterexample :
    containsSub fence "python_version()".data = false ∧
    trimChars "python_version()".data = "python_version()".data ∧
    extract_code (fun _ => true) "python_version()".data fence
      = some "_version()".data ∧
    extract_code (fun _ => true) "python_version()".data fence
      ≠ some "python_version()".data := by
  refine ⟨by decide, by decide, by decide, by decide⟩

/-- C3 (amended): for a response with no separator occurrence that does
not begin with the characters `py` (hence not with `python` either) and
does not begin with a backtick, whose trimmed content is valid Python,
`_extract_code` returns exactly the trimmed content unchanged. -/
theorem c3_no_separator_amended (isPy : List Char → Bool)
    (sep response : List Char) (hsep : sep ≠ [])
    (h0 : containsSub sep response = false)
    (htag : ("py".data).isPrefixOf response = false)
    (hhead : response.head? ≠ some backtickChar)
    (hv : isPy (trimChars response) = true) :
    extract_code isPy response sep = some (trimChars response) := by
  have hnone : splitFirst sep response = none := by
    unfold containsSub at h0
    rw [if_neg hsep] at h0
    cases hs : splitFirst sep response with
    | none => rfl
    | some pr => rw [hs] at h0; exact Bool.noConfusion h0
  unfold extract_code
  rw [extract_candidate_eq _ _ hsep]
  simp only [hnone]
  rw [polish_code_no_tag response htag hhead, hv]
  simp

/-- Witness for the amended C3 at a concrete input. -/
theorem c3_no_separator_amended_witness :
    (fence ≠ []) ∧
    containsSub fence "x = 1".data = false ∧
    ("py".data).isPrefixOf "x = 1".data = false ∧
    (("x = 1".data : List Char).head? ≠ some backtickChar) ∧
    extract_code (fun _ => true) "x = 1".data fence
      = some (trimChars "x = 1".data) := by
  refine ⟨by decide, by decide, by decide, by decide, ?_⟩
  exact c3_no_separator_amended (fun _ => true) fence "x = 1".data
    (by decide) (by decide) (by decide) (by decide) rfl

/-- C4: `_extract_code` raises the "no code found" error exactly when the
polished candidate fails the Python-syntax check (whether or not a
separator was present), and on success it returns the validated polished
candidate without error; the spec's example "not code at all" fails with
the extraction error under a validator that rejects it. -/
theorem c4_no_code_found (isPy : List Char → Bool) (response sep : List Char) :
    ((extract_code isPy response sep = none
      ↔ isPy (polish_code (extract_candidate response sep)) = false) ∧
    (∀ c, extract_code isPy response sep = some c
      → c = polish_code (extract_candidate response sep) ∧ isPy c = true)) ∧
    extract_code (fun s => decide (s = "x=1".data)) "not code at all".data
      fence = none := by
  refine ⟨⟨?_, ?_⟩, by decide⟩
  · unfold extract_code
    cases h : isPy (polish_code (extract_candidate response sep)) with
    | false => simp [h]
    | true => simp [h]
  · intro c hc
    unfold extract_code at hc
    cases h : isPy (polish_code (extract_candidate response sep)) with
    | false => simp [h] at hc
    | true =>
      simp [h] at hc
      exact ⟨hc.symm, hc ▸ h⟩

/-- C5: `_validate` succeeds exactly when every set parameter lies in its
range (temperature, top_p in [0,1]; top_k in [0,100];
max_output_tokens > 0); the first violated check in source order
determines the raised range error, whose message names that parameter;
in particular `_set_params(temperature=1.5)` then `_validate()` fails
citing temperature. -/
theorem c5_validate_ranges (g : BaseGoogle) :
    (validate g = Except.ok ()
      ↔ ((∀ t, g.temperature = some t → 0 ≤ t ∧ t ≤ 1) ∧
         (∀ p, g.top_p = some p → 0 ≤ p ∧ p ≤ 1) ∧
         (∀ k, g.top_k = some k → 0 ≤ k ∧ k ≤ 100) ∧
         (∀ m, g.max_output_tokens = some m → 0 < m))) ∧
    (∀ t, g.temperature = some t → ¬(0 ≤ t ∧ t ≤ 1) →
      validate g = Except.error "temperature must be in the range [0.0, 1.0]") ∧
    ((∀ t, g.temperature = some t → 0 ≤ t ∧ t ≤ 1) →
      ∀ p, g.top_p = some p → ¬(0 ≤ p ∧ p ≤ 1) →
      validate g = Except.error "top_p must be in the range [0.0, 1.0]") ∧
    ((∀ t, g.temperature = some t → 0 ≤ t ∧ t ≤ 1) →
      (∀ p, g.top_p = some p → 0 ≤ p ∧ p ≤ 1) →
      ∀ k, g.top_k = some k → ¬(0 ≤ k ∧ k ≤ 100) →
      validate g = Except.error "top_k must be in the range [0.0, 100.0]") ∧
    ((∀ t, g.temperature = some t → 0 ≤ t ∧ t ≤ 1) →
      (∀ p, g.top_p = some p → 0 ≤ p ∧ p ≤ 1) →
      (∀ k, g.top_k = some k → 0 ≤ k ∧ k ≤ 100) →
      ∀ m, g.max_output_tokens = some m → m ≤ 0 →
      validate g = Except.error "max_output_tokens must be greater than zero") ∧
    validate (set_params googleDefault [("temperature", some (3 / 2))])
      = Except.error "temperature must be in the range [0.0, 1.0]" := by
  refine ⟨validate_ok_iff g, ?_, ?_, ?_, ?_, ?_⟩
  · intro t ht hr
    exact validate_err_temperature g t ht hr
  · intro hT p hp hr
    rw [validate_eq_top_p g hT]
    exact validate_err_top_p g p hp hr
  · intro hT hP k hk hr
    rw [validate_eq_top_p g hT, validate_top_p_eq_top_k g hP]
    exact validate_err_top_k g k hk hr
  · intro hT hP hK m hm hr
    rw [validate_eq_top_p g hT, validate_top_p_eq_top_k g hP,
      validate_top_k_eq_max g hK]
    exact validate_err_max g m hm hr
  · simp [set_params, setattr, valid_params, googleDefault]
    simp [validate]
    norm_num

/-- C6: `prepend_system_prompt` is a pure function of its inputs that
returns the prompt unchanged for an empty memory and prepends the
generated system header in front of the prompt for a non-empty memory. -/
theorem c6_prepend_system_prompt (sysMsg : Memory → String) (prompt : String)
    (memory : Memory) :
    (memory.messages = [] → prepend_system_prompt sysMsg prompt memory = prompt) ∧
    (memory.messages ≠ [] →
      prepend_system_prompt sysMsg prompt memory = sysMsg memory ++ prompt) := by
  constructor <;> intro h <;> simp [prepend_system_prompt, h]

/-- C7: after a completed `BaseGoogle.call`, `last_prompt` equals
`instruction.to_string()`, the memory handed to `_generate_text` is
`context.memory` when a context is supplied and absent otherwise, and the
call result is exactly the `_generate_text` result. -/
theorem c7_call_invariant (gen : String → Option Memory → String)
    (g : BaseGoogle) (instruction : BasePrompt)
    (context : Option PipelineContext) :
    (BaseGoogle.call gen g instruction context).1.last_prompt
        = some instruction.to_string ∧
    (BaseGoogle.call gen g instruction context).2
        = gen instruction.to_string (Option.map PipelineContext.memory context) ∧
    (∀ c, context = some c → (BaseGoogle.call gen g instruction context).2
        = gen instruction.to_string (some c.memory)) ∧
    (context = none → (BaseGoogle.call gen g instruction context).2
        = gen instruction.to_string none) := by
  cases context <;> simp [BaseGoogle.call]

theorem set_params_temperature_lookup (kwargs : List (String × Option ℚ))
    (hnd : (kwargs.map Prod.fst).Nodup) :
    ∀ g : BaseGoogle, (set_params g kwargs).temperature
      = (kwargs.lookup "temperature").getD g.temperature := by
  induction kwargs with
  | nil => intro g; rfl
  | cons kv rest ih =>
    intro g
    obtain ⟨key, v⟩ := kv
    rw [List.map_cons, List.nodup_cons] at hnd
    by_cases hk : key = "temperature"
    · subst hk
      rw [set_params_cons]
      have hcont : valid_params.contains "temperature" = true := by decide
      simp only [hcont, if_true]
      rw [set_params_temperature_not_mem rest hnd.1]
      have hset : (setattr g "temperature" v).temperature = v := by
        unfold setattr; simp
      rw [hset]
      simp [List.lookup]
    · have hne : ("temperature" : String) ≠ key := Ne.symm hk
      rw [set_params_cons, ih hnd.2]
      have hstep : (if valid_params.contains (key, v).1
          then setattr g (key, v).1 (key, v).2 else g).temperature
          = g.temperature := by
        by_cases hc : key ∈ valid_params
        · simp [hc, setattr_temperature_ne g key v hk]
        · simp [hc]
      rw [hstep]
      have hbeq : (("temperature" : String) == key) = false := by
        simp [hne]
      simp [List.lookup, hbeq]

theorem set_params_top_p_lookup (kwargs : List (String × Option ℚ))
    (hnd : (kwargs.map Prod.fst).Nodup) :
    ∀ g : BaseGoogle, (set_params g kwargs).top_p
      = (kwargs.lookup "top_p").getD g.top_p := by
  induction kwargs with
  | nil => intro g; rfl
  | cons kv rest ih =>
    intro g
    obtain ⟨key, v⟩ := kv
    rw [List.map_cons, List.nodup_cons] at hnd
    by_cases hk : key = "top_p"
    · subst hk
      rw [set_params_cons]
      have hcont : valid_params.contains "top_p" = true := by decide
      simp only [hcont, if_true]
      rw [set_params_top_p_not_mem rest hnd.1]
      have hset : (setattr g "top_p" v).top_p = v := by
        unfold setattr; simp
      rw [hset]
      simp [List.lookup]
    · have hne : ("top_p" : String) ≠ key := Ne.symm hk
      rw [set_params_cons, ih hnd.2]
      have hstep : (if valid_params.contains (key, v).1
          then setattr g (key, v).1 (key, v).2 else g).top_p
          = g.top_p := by
        by_cases hc : key ∈ valid_params
        · simp [hc, setattr_top_p_ne g key v hk]
        · simp [hc]
      rw [hstep]
      have hbeq : (("top_p" : String) == key) = false := by
        simp [hne]
      simp [List.lookup, hbeq]

theorem set_params_top_k_lookup (kwargs : List (String × Option ℚ))
    (hnd : (kwargs.map Prod.fst).Nodup) :
    ∀ g : BaseGoogle, (set_params g kwargs).top_k
      = (kwargs.lookup "top_k").getD g.top_k := by
  induction kwargs with
  | nil => intro g; rfl
  | cons kv rest ih =>
    intro g
    obtain ⟨key, v⟩ := kv
    rw [List.map_cons, List.nodup_cons] at hnd
    by_cases hk : key = "top_k"
    · subst hk
      rw [set_params_cons]
      have hcont : valid_params.contains "top_k" = true := by decide
      simp only [hcont, if_true]
      rw [set_params_top_k_not_mem rest hnd.1]
      have hset : (setattr g "top_k" v).top_k = v := by
        unfold setattr; simp
      rw [hset]
      simp [List.lookup]
    · have hne : ("top_k" : String) ≠ key := Ne.symm hk
      rw [set_params_cons, ih hnd.2]
      have hstep : (if valid_params.contains (key, v).1
          then setattr g (key, v).1 (key, v).2 else g).top_k
          = g.top_k := by
        by_cases hc : key ∈ valid_params
        · simp [hc, setattr_top_k_ne g key v hk]
        · simp [hc]
      rw [hstep]
      have hbeq : (("top_k" : String) == key) = false := by
        simp [hne]
      simp [List.lookup, hbeq]

theorem set_params_max_lookup (kwargs : List (String × Option ℚ))
    (hnd : (kwargs.map Prod.fst).Nodup) :
    ∀ g : BaseGoogle, (set_params g kwargs).max_output_tokens
      = (kwargs.lookup "max_output_tokens").getD g.max_output_tokens := by
  induction kwargs with
  | nil => intro g; rfl
  | cons kv rest ih =>
    intro g
    obtain ⟨key, v⟩ := kv
    rw [List.map_cons, List.nodup_cons] at hnd
    by_cases hk : key = "max_output_tokens"
    · subst hk
      rw [set_params_cons]
      have hcont : valid_params.contains "max_output_tokens" = true := by decide
      simp only [hcont, if_true]
      rw [set_params_max_not_mem rest hnd.1]
      have hset : (setattr g "max_output_tokens" v).max_output_tokens = v := by
        unfold setattr; simp
      rw [hset]
      simp [List.lookup]
    · have hne : ("max_output_tokens" : String) ≠ key := Ne.symm hk
      rw [set_params_cons, ih hnd.2]
      have hstep : (if valid_params.contains (key, v).1
          then setattr g (key, v).1 (key, v).2 else g).max_output_tokens
          = g.max_output_tokens := by
        by_cases hc : key ∈ valid_params
        · simp [hc, setattr_max_ne g key v hk]
        · simp [hc]
      rw [hstep]
      have hbeq : (("max_output_tokens" : String) == key) = false := by
        simp [hne]
      simp [List.lookup, hbeq]

theorem set_params_id_of_unknown (kwargs : List (String × Option ℚ))
    (h : ∀ k ∈ kwargs.map Prod.fst, k ∉ valid_params) :
    ∀ g : BaseGoogle, set_params g kwargs = g := by
  induction kwargs with
  | nil => intro g; rfl
  | cons kv rest ih =>
    intro g
    have hhead : kv.1 ∉ valid_params := h kv.1 (by simp)
    have htail : ∀ k ∈ rest.map Prod.fst, k ∉ valid_params := by
      intro k hk
      exact h k (by simp [hk])
    rw [set_params_cons]
    have hstep : (if valid_params.contains kv.1 then setattr g kv.1 kv.2 else g)
        = g := by
      simp [hhead]
    rw [hstep]
    exact ih htail g

/-- C8: `_set_params` overwrites exactly the fields whose keys appear in
the allow-list {temperature, top_p, top_k, max_output_tokens} with the
supplied values (no range check), silently ignores every other key, and
leaves all fields whose keys were not supplied unchanged (including
`last_prompt`). -/
theorem c8_set_params_frame (g : BaseGoogle)
    (kwargs : List (String × Option ℚ))
    (hnd : (kwargs.map Prod.fst).Nodup) :
    (set_params g kwargs).temperature
      = (kwargs.lookup "temperature").getD g.temperature ∧
    (set_params g kwargs).top_p = (kwargs.lookup "top_p").getD g.top_p ∧
    (set_params g kwargs).top_k = (kwargs.lookup "top_k").getD g.top_k ∧
    (set_params g kwargs).max_output_tokens
      = (kwargs.lookup "max_output_tokens").getD g.max_output_tokens ∧
    (set_params g kwargs).last_prompt = g.last_prompt ∧
    ((∀ k ∈ kwargs.map Prod.fst, k ∉ valid_params) → set_params g kwargs = g) :=
  ⟨set_params_temperature_lookup kwargs hnd g,
   set_params_top_p_lookup kwargs hnd g,
   set_params_top_k_lookup kwargs hnd g,
   set_params_max_lookup kwargs hnd g,
   set_params_last_prompt kwargs g,
   fun h => set_params_id_of_unknown kwargs h g⟩

/-- Witness for C8 at a concrete kwargs map with one allow-listed key and
one unknown key. -/
theorem c8_set_params_frame_witness :
    (([("temperature", (some 1 : Option ℚ)), ("bogus", some 2)].map
        Prod.fst).Nodup) ∧
    ((set_params googleDefault
        [("temperature", some 1), ("bogus", some 2)]).temperature
      = ([("temperature", (some 1 : Option ℚ)),
          ("bogus", some 2)].lookup "temperature").getD
          googleDefault.temperature ∧
    (set_params googleDefault
        [("temperature", some 1), ("bogus", some 2)]).top_p
      = ([("temperature", (some 1 : Option ℚ)),
          ("bogus", some 2)].lookup "top_p").getD googleDefault.top_p ∧
    (set_params googleDefault
        [("temperature", some 1), ("bogus", some 2)]).top_k
      = ([("temperature", (some 1 : Option ℚ)),
          ("bogus", some 2)].lookup "top_k").getD googleDefault.top_k ∧
    (set_params googleDefault
        [("temperature", some 1), ("bogus", some 2)]).max_output_tokens
      = ([("temperature", (some 1 : Option ℚ)),
          ("bogus", some 2)].lookup "max_output_tokens").getD
          googleDefault.max_output_tokens ∧
    (set_params googleDefault
        [("temperature", some 1), ("bogus", some 2)]).last_prompt
      = googleDefault.last_prompt ∧
    ((∀ k ∈ [("temperature", (some 1 : Option ℚ)),
             ("bogus", some 2)].map Prod.fst, k ∉ valid_params) →
      set_params googleDefault [("temperature", some 1), ("bogus", some 2)]
        = googleDefault)) := by
  refine ⟨by decide, ?_⟩
  exact c8_set_params_frame googleDefault
    [("temperature", some 1), ("bogus", some 2)] (by decide)

/-- C9: `_validate` skips the range check of every parameter that is
`None`: with all four parameters `None` it succeeds, and a parameter that
is `None` can never be the one cited by a raised range error. -/
theorem c9_validate_skips_none :
    validate { last_prompt := none, temperature := none, top_p := none,
               top_k := none, max_output_tokens := none } = Except.ok () ∧
    (∀ g : BaseGoogle, g.temperature = none →
      validate g ≠ Except.error "temperature must be in the range [0.0, 1.0]") ∧
    (∀ g : BaseGoogle, g.top_p = none →
      validate g ≠ Except.error "top_p must be in the range [0.0, 1.0]") ∧
    (∀ g : BaseGoogle, g.top_k = none →
      validate g ≠ Except.error "top_k must be in the range [0.0, 100.0]") ∧
    (∀ g : BaseGoogle, g.max_output_tokens = none →
      validate g ≠ Except.error "max_output_tokens must be greater than zero") := by
  refine ⟨rfl, ?_, ?_, ?_, ?_⟩
  · intro g h hc
    have hskip : validate g = validate_top_p g := by
      unfold validate; rw [h]
    rw [hskip] at hc
    rcases validate_top_p_error_shape g _ hc with he | he | he <;>
      exact absurd he (by decide)
  · intro g h hc
    by_cases hT : ∀ t, g.temperature = some t → 0 ≤ t ∧ t ≤ 1
    · rw [validate_eq_top_p g hT] at hc
      have hskip : validate_top_p g = validate_top_k g := by
        unfold validate_top_p; rw [h]
      rw [hskip] at hc
      rcases validate_top_k_error_shape g _ hc with he | he <;>
        exact absurd he (by decide)
    · simp only [not_forall, Classical.not_imp] at hT
      obtain ⟨t, ht, hr⟩ := hT
      rw [validate_err_temperature g t ht hr] at hc
      injection hc with he
      exact absurd he (by decide)
  · intro g h hc
    by_cases hT : ∀ t, g.temperature = some t → 0 ≤ t ∧ t ≤ 1
    · rw [validate_eq_top_p g hT] at hc
      by_cases hP : ∀ p, g.top_p = some p → 0 ≤ p ∧ p ≤ 1
      · rw [validate_top_p_eq_top_k g hP] at hc
        have hskip : validate_top_k g = validate_max_output_tokens g := by
          unfold validate_top_k; rw [h]
        rw [hskip] at hc
        have he := validate_max_error_shape g _ hc
        exact absurd he (by decide)
      · simp only [not_forall, Classical.not_imp] at hP
        obtain ⟨p, hp, hr⟩ := hP
        rw [validate_err_top_p g p hp hr] at hc
        injection hc with he
        exact absurd he (by decide)
    · simp only [not_forall, Classical.not_imp] at hT
      obtain ⟨t, ht, hr⟩ := hT
      rw [validate_err_temperature g t ht hr] at hc
      injection hc with he
      exact absurd he (by decide)
  · intro g h hc
    by_cases hT : ∀ t, g.temperature = some t → 0 ≤ t ∧ t ≤ 1
    · rw [validate_eq_top_p g hT] at hc
      by_cases hP : ∀ p, g.top_p = some p → 0 ≤ p ∧ p ≤ 1
      · rw [validate_top_p_eq_top_k g hP] at hc
        by_cases hK : ∀ k, g.top_k = some k → 0 ≤ k ∧ k ≤ 100
        · rw [validate_top_k_eq_max g hK] at hc
          have hskip : validate_max_output_tokens g = Except.ok () := by
            unfold validate_max_output_tokens; rw [h]
          rw [hskip] at hc
          exact Except.noConfusion hc
        · simp only [not_forall, Classical.not_imp] at hK
          obtain ⟨k, hk, hr⟩ := hK
          rw [validate_err_top_k g k hk hr] at hc
          injection hc with he
          exact absurd he (by decide)
      · simp only [not_forall, Classical.not_imp] at hP
        obtain ⟨p, hp, hr⟩ := hP
        rw [validate_err_top_p g p hp hr] at hc
        injection hc with he
        exact absurd he (by decide)
    · simp only [not_forall, Classical.not_imp] at hT
      obtain ⟨t, ht, hr⟩ := hT
      rw [validate_err_temperature g t ht hr] at hc
      injection hc with he
      exact absurd he (by decide)

/-- C10: on the empty response, and on any whitespace-only response, with
the default separator, extraction returns the empty code (no
`NoCodeFoundError`) provided the empty string counts as valid Python (as
`ast.parse("")` does); consequently `generate_code` returns the empty
string for an empty provider response. -/
theorem c10_whitespace_empty (isPy : List Char → Bool) (response : List Char)
    (hws : ∀ c ∈ response, isPySpace c = true) (hempty : isPy [] = true) :
    extract_code isPy response fence = some [] ∧
    generate_code isPy response = some [] := by
  have hnb : backtickChar ∉ response := by
    intro hm
    have := hws backtickChar hm
    exact absurd this (by decide)
  have hnone : splitFirst fence response = none :=
    splitFirst_no_backtick response hnb
  have hfence : fence ≠ [] := by decide
  have htag : ("py".data).isPrefixOf response = false := by
    cases response with
    | nil => rfl
    | cons c cs =>
      have hc := hws c (by simp)
      rw [py_data_cons]
      simp only [List.isPrefixOf]
      have hpc : (('p' : Char) == c) = false := by
        rw [beq_eq_false_iff_ne]
        intro he
        rw [← he] at hc
        exact absurd hc (by decide)
      simp [hpc]
  have hhead : response.head? ≠ some backtickChar := by
    cases response with
    | nil => simp
    | cons c cs =>
      simp only [List.head?, ne_eq, Option.some.injEq]
      intro he
      have := hws c (by simp)
      rw [he] at this
      exact absurd this (by decide)
  have htrim : trimChars response = [] := trimChars_of_all_space response hws
  have hext : extract_code isPy response fence = some [] := by
    unfold extract_code
    rw [extract_candidate_eq _ _ hfence]
    simp only [hnone]
    rw [polish_code_no_tag response htag hhead, htrim, hempty]
    simp
  exact ⟨hext, hext⟩

/-- Witness for C10 on the empty response and a whitespace-only response. -/
theorem c10_whitespace_empty_witness :
    ((∀ c ∈ ("".data : List Char), isPySpace c = true) ∧
     extract_code (fun _ => true) "".data fence = some [] ∧
     generate_code (fun _ => true) "".data = some []) ∧
    ((∀ c ∈ (" \n ".data : List Char), isPySpace c = true) ∧
     extract_code (fun _ => true) " \n ".data fence = some [] ∧
     generate_code (fun _ => true) " \n ".data = some []) := by
  constructor
  · refine ⟨by decide, ?_⟩
    have h := c10_whitespace_empty (fun _ => true) "".data (by decide) rfl
    exact h
  · refine ⟨by decide, ?_⟩
    have h := c10_whitespace_empty (fun _ => true) " \n ".data (by decide) rfl
    exact h
